import Mathlib

/-!
Verification of the sparse-matrix storage engine (dynamic COO / COOmap
representations, compressed YALE representation, conversion protocol).

The definitions below are a shallow embedding of the C++ sources:
  - `Comparators.hpp`   : storage-order comparator
  - `COOImpl.hpp`       : list-based dynamic representation
  - `COOmapImpl.hpp`    : map-based dynamic representation
  - `YALEImpl.hpp`      : compressed representation
  - `MatrixImpl.hpp`    : facade, compress()/uncompress() driver loops
  - `Dimensions.cpp`    : dimensions holder

Scalars are modelled as `Int`: every concrete input used below has small
integer values, on which C++ `double` arithmetic (absolute value, sum,
max) is exact, so the integer model computes bit-for-bit the values the
program computes.  `size_t` indices are modelled as `Nat`; each spot
where C++ signed arithmetic could go negative is noted at the definition.
-/

namespace SpMat

/-- Storage orders, from `Comparators.hpp` (`enum StorageOrder`). -/
inductive StorageOrder where
  | rowMajor : StorageOrder
  | columnMajor : StorageOrder
deriving DecidableEq, Repr

open StorageOrder

/-- `Comparator<S>::operator()` from `Comparators.hpp`: strict order on
coordinate pairs, primary key row (row-major) or column (column-major). -/
def cmpLt : StorageOrder → ℕ × ℕ → ℕ × ℕ → Bool
  | rowMajor, a, b =>
      if a.1 ≠ b.1 then decide (a.1 < b.1) else decide (a.2 < b.2)
  | columnMajor, a, b =>
      if a.2 ≠ b.2 then decide (a.2 < b.2) else decide (a.1 < b.1)

/-- `COO<T,S>::next_line` from `COOImpl.hpp`. -/
def nextLine : StorageOrder → ℕ → ℕ × ℕ
  | rowMajor, i => (i + 1, 0)
  | columnMajor, i => (0, i + 1)

/-- `YALE<T,S>::inner_outer` from `YALEImpl.hpp`. -/
def innerOuter : StorageOrder → ℕ → ℕ → ℕ × ℕ
  | rowMajor, i, j => (i, j)
  | columnMajor, i, j => (j, i)

/-- Dynamic (COO) state: dimensions plus the ordered entry list
(`indexptr`/`valuesptr` of `COOImpl.hpp`, kept sorted by `cmpLt`). -/
structure COO where
  rows : ℕ
  columns : ℕ
  entries : List ((ℕ × ℕ) × Int)
deriving DecidableEq, Repr

/-- Compressed (YALE) state: the three arrays `innerindex_ptr`,
`outerindex_ptr`, `values_ptr` of `YALEImpl.hpp` plus dimensions. -/
structure YALE where
  rows : ℕ
  columns : ℕ
  inner : List ℕ
  outer : List ℕ
  values : List Int
deriving DecidableEq, Repr

/-- `COO<T,S>::find_dynamic_const` from `COOImpl.hpp`: ordered scan,
early break once the scan passes the point where `(i,j)` would sort. -/
def COO.find_dynamic_const (S : StorageOrder) (i j : ℕ) :
    List ((ℕ × ℕ) × Int) → Int
  | [] => 0
  | (q, v) :: rest =>
      if q = (i, j) then v
      else if cmpLt S q (i, j) = false then 0
      else COO.find_dynamic_const S i j rest

/-- Result of `std::lower_bound` on the index range `[first, last)` of
`arr`: the first position whose element is `≥ tgt`, else `last`.  When the
range is inverted (`last < first`, which the C++ call sites reach with
`last = first - 1` on an empty line) every real implementation computes a
non-positive length and returns `first`; this function does the same
because the fuel `last - first` is then `0`.  `Nat` subtraction at the
call sites produces the same `first`-result as the C++ signed `-1`
because both yield a non-positive length. -/
def lowerBoundGo (arr : List ℕ) (tgt : ℕ) : ℕ → ℕ → ℕ
  | 0, first => first
  | fuel + 1, first =>
      if tgt ≤ arr.getD first 0 then first
      else lowerBoundGo arr tgt fuel (first + 1)

/-- Entry point for `lowerBoundGo`: the range length `last - first` is
the fuel; an inverted range has length `0` and returns `first`. -/
def lowerBoundFrom (arr : List ℕ) (first last tgt : ℕ) : ℕ :=
  lowerBoundGo arr tgt (last - first) first

/-- `YALE<T,S>::find_compressed_const` from `YALEImpl.hpp`: binary search
of the line slice `[lineStart, lineStart + lineLen - 1)` (note the `- 1`),
then a dereference-and-compare of the resulting position. -/
def YALE.find_compressed_const (S : StorageOrder) (y : YALE) (i j : ℕ) :
    Int :=
  let p := innerOuter S i j
  let cumulated := y.inner.getD p.1 0
  let currentLine := y.inner.getD (p.1 + 1) 0 - cumulated
  let lower := lowerBoundFrom y.outer cumulated (currentLine + cumulated - 1) p.2
  if y.outer.getD lower 0 = p.2 then y.values.getD lower 0 else 0

/-- `YALE<T,S>::find_compressed` from `YALEImpl.hpp` (mutable lookup):
returns the updated state and the slot position.  On a miss it inserts a
zero into `values`/`outer` at `diff` or `diff + 1` and then increments the
`lineStart` entries with index in `[1 + in, rows + 1)` — the loop bound is
`rows + 1` in the source for BOTH storage orders. -/
def YALE.find_compressed (S : StorageOrder) (y : YALE) (i j : ℕ) :
    YALE × ℕ :=
  let p := innerOuter S i j
  let cumulated := y.inner.getD p.1 0
  let currentLine := y.inner.getD (p.1 + 1) 0 - cumulated
  let lower := lowerBoundFrom y.outer cumulated (currentLine + cumulated - 1) p.2
  if y.outer.getD lower 0 = p.2 then (y, lower)
  else
    let pos := if p.2 < y.outer.getD lower 0 then lower else lower + 1
    let inner2 := y.inner.mapIdx fun l x =>
      if 1 + p.1 ≤ l ∧ l < y.rows + 1 then x + 1 else x
    ({ y with
        inner := inner2
        outer := y.outer.insertIdx pos p.2
        values := y.values.insertIdx pos 0 }, pos)

/-- Running-sum pass of `YALE::compress_from_triplets` (`last_it` branch):
`inner[k] := inner[k] + inner[k-1]` front to back. -/
def accumulate (acc : ℕ) : List ℕ → List ℕ
  | [] => []
  | x :: rest => (acc + x) :: accumulate (acc + x) rest

/-- One iteration of `YALE::compress_from_triplets`: bump the per-line
counter at `primary + 1` and append the outer index and the value. -/
def compressStep (S : StorageOrder)
    (st : List ℕ × List ℕ × List Int) (t : (ℕ × ℕ) × Int) :
    List ℕ × List ℕ × List Int :=
  let line := match S with
    | rowMajor => t.1.1
    | columnMajor => t.1.2
  let out := match S with
    | rowMajor => t.1.2
    | columnMajor => t.1.1
  (st.1.set (line + 1) (st.1.getD (line + 1) 0 + 1),
   st.2.1 ++ [out], st.2.2 ++ [t.2])

/-- `Matrix::compress` from `MatrixImpl.hpp` driving
`compress_from_dynamic`/`compress_from_triplets`: the dynamic side emits
its entries in storage order, the compressed side counts per line and
finishes with the running-sum pass. -/
def compressCOO (S : StorageOrder) (m : COO) : YALE :=
  let lines := match S with
    | rowMajor => m.rows
    | columnMajor => m.columns
  let st := m.entries.foldl (compressStep S)
      (List.replicate (lines + 1) 0, [], [])
  { rows := m.rows, columns := m.columns
    inner := accumulate 0 st.1, outer := st.2.1, values := st.2.2 }

/-- Loop body of `YALE::uncompress_from_compressed` from `YALEImpl.hpp`:
emit `(line, outer[k], values[k])`, then advance the line cursor by ONE
if `k + 1 ≥ lineStart[line + 1]` (a single `if`, not a loop, in the
source). `fuel` is the number of remaining elements. -/
def uncompressGo (S : StorageOrder) (y : YALE) :
    ℕ → ℕ → ℕ → List ((ℕ × ℕ) × Int)
  | 0, _, _ => []
  | fuel + 1, k, li =>
      let out := y.outer.getD k 0
      let v := y.values.getD k 0
      let t := match S with
        | rowMajor => ((li, out), v)
        | columnMajor => ((out, li), v)
      let li2 := if y.inner.getD (li + 1) 0 ≤ k + 1 then li + 1 else li
      t :: uncompressGo S y fuel (k + 1) li2

/-- `Matrix::uncompress` from `MatrixImpl.hpp` driving
`uncompress_from_compressed`/`uncompress_from_triplets`: the compressed
side reconstructs one triplet per stored element and the dynamic side
appends them in order. -/
def uncompressYALE (S : StorageOrder) (y : YALE) : COO :=
  { rows := y.rows, columns := y.columns
    entries := uncompressGo S y y.values.length 0 0 }

/-- `by_vector_dynamic` from `COOImpl.hpp` (the `COOmap` overload is the
same accumulation): `result[row] += value * v[col]` over all entries,
`result` of length `rows`. -/
def byVectorDynamic (m : COO) (v : List Int) : List Int :=
  m.entries.foldl
    (fun r e => r.set e.1.1 (r.getD e.1.1 0 + e.2 * v.getD e.1.2 0))
    (List.replicate m.rows 0)

/-- `by_vector_compressed` from `YALEImpl.hpp`: iterates `i` over
`[0, m.rows)` (the source uses `m.rows` as the line count for BOTH
storage orders) and for each `k` in `[lineStart[i], lineStart[i+1])`
accumulates into `result[i]` (row-major) or `result[outer[k]]`
(column-major). -/
def byVectorCompressed (S : StorageOrder) (y : YALE) (v : List Int) :
    List Int :=
  (List.range y.rows).foldl
    (fun r i =>
      let start := y.inner.getD i 0
      let stop := y.inner.getD (i + 1) 0
      (List.range' start (stop - start)).foldl
        (fun r2 k =>
          let oi := y.outer.getD k 0
          let val := y.values.getD k 0
          match S with
          | rowMajor => r2.set i (r2.getD i 0 + val * v.getD oi 0)
          | columnMajor => r2.set oi (r2.getD oi 0 + val * v.getD i 0)) r)
    (List.replicate y.rows 0)

/-- Whether the compressed state stores an entry at `(i,j)`: the outer
target occurs in the line's slice `[lineStart[line], lineStart[line+1])`
of the outer array (the data model of spec §3). -/
def YALE.hasEntry (S : StorageOrder) (y : YALE) (i j : ℕ) : Bool :=
  let p := innerOuter S i j
  let a := y.inner.getD p.1 0
  let b := y.inner.getD (p.1 + 1) 0
  ((y.outer.drop a).take (b - a)).contains p.2

/-- `COO<T,S>::norm_dynamic` from `COOImpl.hpp`, branch
`(Infinity ∧ rowMajor) ∨ (One ∧ columnMajor)`: a running per-line sum
driven by the counter `i` and `next_line(i)`; on a line break the counter
advances by ONE.  Initial call: `i = 0`, `sum = 0`, `res = 0`. -/
def cooNormNative (S : StorageOrder) (i : ℕ) (sum res : ℤ) :
    List ((ℕ × ℕ) × Int) → ℤ
  | [] => max sum res
  | (p, v) :: rest =>
      if cmpLt S p (nextLine S i) = true then
        cooNormNative S i (sum + |v|) res rest
      else
        cooNormNative S (i + 1) |v| (max sum res) rest

/-- `*std::max_element` over a non-empty vector. -/
def maxElem : List ℤ → ℤ
  | [] => 0
  | x :: rest => rest.foldl max x

/-- `COOmap<T,S>::norm_dynamic` from `COOmapImpl.hpp`, `Infinity` branch:
accumulate `|value|` into a per-row array of length `rows`, then take the
maximum. -/
def coomapNormInf (rows : ℕ) (entries : List ((ℕ × ℕ) × Int)) : ℤ :=
  maxElem (entries.foldl
    (fun acc e => acc.set e.1.1 (acc.getD e.1.1 0 + |e.2|))
    (List.replicate rows (0 : ℤ)))

/-- Facade state of `Matrix.hpp`: one optional representation per
storage kind plus the `isCompressed` flag.  The flag is an `Option Bool`:
`some b` models a flag that has been assigned `b`, `none` models the
member being left uninitialized (an indeterminate value in C++). -/
structure MatrixState where
  dynamicStore : Option COO
  compressedStore : Option YALE
  isCompressed : Option Bool
deriving DecidableEq, Repr

/-- Dynamic-mode constructors of `MatrixImpl.hpp` (triplet, map, tagged):
each ends its body with `isCompressed = false;`. -/
def matrixFromDynamic (m : COO) : MatrixState :=
  { dynamicStore := some m, compressedStore := none, isCompressed := some false }

/-- `Matrix::Matrix(std::string&)` from `MatrixImpl.hpp` lines 111-113:
initializes the dynamic base from the parsed file contents, but its body
is empty — it never assigns `isCompressed`, so the flag stays
uninitialized (`none`).  `parsed` stands for the triplets read from the
file; parsing itself is an external collaborator per spec §1. -/
def matrixFromFile (parsed : COO) : MatrixState :=
  { dynamicStore := some parsed, compressedStore := none, isCompressed := none }

/-! ### Concrete states used to evaluate the code on failing inputs -/

/-- Row-major 2×2 dynamic matrix with the single entry `(1,1) = 5`
(row 0 holds no stored entry). -/
def cooRow11 : COO := { rows := 2, columns := 2, entries := [((1, 1), 5)] }

/-- Row-major 3×1 dynamic matrix with entries `(0,0) = 1`, `(2,0) = 3`
(row 1 holds no stored entry). -/
def cooGap : COO := { rows := 3, columns := 1, entries := [((0, 0), 1), ((2, 0), 3)] }

/-- Column-major 1×2 dynamic matrix with entries `(0,0) = 1`, `(0,1) = 2`
(non-square: 1 row, 2 columns). -/
def cooWide : COO := { rows := 1, columns := 2, entries := [((0, 0), 1), ((0, 1), 2)] }

/-- Column-major 2×3 compressed matrix holding `(0,0)=1`, `(0,1)=2`,
`(0,2)=3`: `lineStart = [0,1,2,3]` over the three column lines. -/
def yaleWide : YALE :=
  { rows := 2, columns := 3, inner := [0, 1, 2, 3], outer := [0, 0, 0],
    values := [1, 2, 3] }

/-- Row-major 2×2 compressed matrix with the single entry `(1,1) = 5`:
`lineStart = [0,0,1]`, `outer = [1]`, `values = [5]`. -/
def yaleRow11 : YALE :=
  { rows := 2, columns := 2, inner := [0, 0, 1], outer := [1], values := [5] }

/-- Row-major entries `(0,0)=1`, `(2,0)=3`, `(2,1)=4` (row 1 empty),
`rows = 3`, used for the norm comparison. -/
def normEntries : List ((ℕ × ℕ) × Int) := [((0, 0), 1), ((2, 0), 3), ((2, 1), 4)]

/-- C1: the element access `operator()(i,j)` is NOT preserved by
`compress()`: on the row-major 2×2 matrix whose only entry is `(1,1)=5`,
the dynamic lookup of the absent coordinate `(0,1)` returns `0`, but
after `compress()` the compressed lookup returns `5` (the inverted
`lower_bound` range for the empty row 0 lands on the next line's entry).
Moreover `m * v` differs between states for a column-major non-square
matrix: `by_vector_compressed` iterates `m.rows` lines instead of
`m.columns`, so on the 1×2 matrix `[1 2]` with `v = [1,1]` the dynamic
product is `[3]` but the compressed product is `[1]`. -/
theorem c1_lookup_and_product_not_preserved_by_compress :
    COO.find_dynamic_const .rowMajor 0 1 cooRow11.entries = 0 ∧
    YALE.find_compressed_const .rowMajor (compressCOO .rowMajor cooRow11) 0 1 = 5 ∧
    byVectorDynamic cooWide [1, 1] = [3] ∧
    byVectorCompressed .columnMajor (compressCOO .columnMajor cooWide) [1, 1] = [1] := by
  decide

/-- C2: `uncompress(compress(M))` does NOT restore the coordinate→value
mapping when a line is empty: for the row-major 3×1 matrix with entries
`(0,0)=1` and `(2,0)=3` (row 1 empty), the round trip yields entries
`(0,0)=1` and `(1,0)=3` — the line cursor of
`uncompress_from_compressed` advances only one line per element, so the
entry of row 2 is emitted with row index 1. -/
theorem c2_roundtrip_loses_coordinates_on_empty_line :
    uncompressYALE .rowMajor (compressCOO .rowMajor cooGap) ≠ cooGap ∧
    (uncompressYALE .rowMajor (compressCOO .rowMajor cooGap)).entries
      = [((0, 0), 1), ((1, 0), 3)] := by
  decide

/-- C3: inserting through the mutable access into a column-major
compressed matrix breaks the compressed-format invariants: on the 2×3
matrix with `lineStart = [0,1,2,3]`, inserting at the absent coordinate
`(1,0)` increments only the `lineStart` entries with index `< rows + 1
= 3` (the source loop is bounded by `rows + 1` for both storage orders),
producing `lineStart = [0,2,3,3]` whose last entry `3` differs from the
new values length `4`. -/
theorem c3_columnMajor_insert_breaks_lineStart_invariant :
    (YALE.find_compressed .columnMajor yaleWide 1 0).1.inner = [0, 2, 3, 3] ∧
    (YALE.find_compressed .columnMajor yaleWide 1 0).1.values.length = 4 ∧
    (YALE.find_compressed .columnMajor yaleWide 1 0).1.inner.getLastD 0 ≠
      (YALE.find_compressed .columnMajor yaleWide 1 0).1.values.length := by
  decide

/-- C4: the two dynamic backends do NOT return the same norm on a matrix
with an empty line: on the row-major entries `(0,0)=1`, `(2,0)=3`,
`(2,1)=4` (rows = 3, row 1 empty) the COO infinity-norm loop desyncs its
line counter and returns `4`, while the COOmap infinity norm returns the
correct `7`.  All quantities are small integers, on which the `double`
arithmetic of both loops is exact. -/
theorem c4_coo_and_coomap_infinity_norm_differ :
    cooNormNative .rowMajor 0 0 0 normEntries = 4 ∧
    coomapNormInf 3 normEntries = 7 := by
  decide

/-- C5: the compressed read-only lookup of an absent in-bounds coordinate
does NOT return zero when the coordinate's line is empty: on the
row-major compressed state with single entry `(1,1)=5`, the coordinate
`(0,1)` has no stored entry, yet `find_compressed_const` returns `5` —
the inverted `lower_bound` range for empty row 0 returns its first
position, which holds the outer index of row 1's entry. -/
theorem c5_compressed_lookup_of_absent_coordinate_nonzero :
    YALE.hasEntry .rowMajor yaleRow11 0 1 = false ∧
    YALE.find_compressed_const .rowMajor yaleRow11 0 1 = 5 := by
  decide

/-- C6: the file-based constructor leaves the `isCompressed` member
uninitialized: unlike every other constructor of `MatrixImpl.hpp` (all of
which end with `isCompressed = false;`), the body of
`Matrix(std::string&)` is empty, so `is_compressed()` reads an
indeterminate value rather than the `false` the claim requires. -/
theorem c6_file_constructor_leaves_flag_uninitialized (parsed : COO) :
    (matrixFromFile parsed).isCompressed = none ∧
    (matrixFromFile parsed).isCompressed ≠ (matrixFromDynamic parsed).isCompressed := by
  simp [matrixFromFile, matrixFromDynamic]

/-- `Dimensions::resize` from `Dimensions.cpp` applied to a dynamic
matrix: the body assigns `rows = r; columns = c;` and nothing else — no
assertion (even under `DEBUG`), no truncation of entries. -/
def COO.resize (m : COO) (r c : ℕ) : COO :=
  { m with rows := r, columns := c }

/-- `Dimensions::resize` from `Dimensions.cpp` applied to a compressed
matrix: only the two dimension fields change. -/
def YALE.resize (y : YALE) (r c : ℕ) : YALE :=
  { y with rows := r, columns := c }

/-- `COO<T,S>::find_dynamic` from `COOImpl.hpp` (mutable lookup), effect
on the entry list: ordered scan; on an exact match the list is unchanged;
once the scan passes the sort position, a zero-valued entry is inserted
there; if the scan ends, the entry is appended. -/
def COO.find_dynamic_entries (S : StorageOrder) (i j : ℕ) :
    List ((ℕ × ℕ) × Int) → List ((ℕ × ℕ) × Int)
  | [] => [((i, j), 0)]
  | (q, v) :: rest =>
      if q = (i, j) then (q, v) :: rest
      else if cmpLt S q (i, j) = false then ((i, j), 0) :: (q, v) :: rest
      else (q, v) :: COO.find_dynamic_entries S i j rest

/-- `COOmap<T,S>::find_dynamic` from `COOmapImpl.hpp`
(`(*matrixptr)[{i,j}]`), effect on the map contents: `std::map`
`operator[]` inserts a value-initialized (zero) entry at the key's sorted
position when the key is absent, and changes nothing when it is
present.  The map is modelled as its sorted association list. -/
def COOmap.find_dynamic_entries (S : StorageOrder) (i j : ℕ) :
    List ((ℕ × ℕ) × Int) → List ((ℕ × ℕ) × Int)
  | [] => [((i, j), 0)]
  | (q, v) :: rest =>
      if q = (i, j) then (q, v) :: rest
      else if cmpLt S (i, j) q = true then ((i, j), 0) :: (q, v) :: rest
      else (q, v) :: COOmap.find_dynamic_entries S i j rest

theorem cooFindDyn_spec (S : StorageOrder) (i j : ℕ) :
    ∀ entries : List ((ℕ × ℕ) × Int), (i, j) ∉ entries.map Prod.fst →
      (COO.find_dynamic_entries S i j entries).length = entries.length + 1 ∧
      ((i, j), 0) ∈ COO.find_dynamic_entries S i j entries ∧
      (∀ e ∈ entries, e ∈ COO.find_dynamic_entries S i j entries) ∧
      (∀ e ∈ COO.find_dynamic_entries S i j entries,
        e = ((i, j), 0) ∨ e ∈ entries) := by
  intro entries
  induction entries with
  | nil => intro _; simp [COO.find_dynamic_entries]
  | cons hd tl ih =>
      intro habs
      obtain ⟨q, v⟩ := hd
      simp only [List.map_cons, List.mem_cons] at habs
      push_neg at habs
      have hq : q ≠ (i, j) := fun h => habs.1 h.symm
      by_cases hlt : cmpLt S q (i, j) = false
      · simp only [COO.find_dynamic_entries, if_neg hq, if_pos hlt]
        refine ⟨by simp, by simp, ?_, ?_⟩
        · intro e he; simp [he]
        · intro e he
          simpa using he
      · obtain ⟨h1, h2, h3, h4⟩ := ih habs.2
        simp only [COO.find_dynamic_entries, if_neg hq, if_neg hlt]
        refine ⟨by simpa using h1, by simp [h2], ?_, ?_⟩
        · intro e he
          rcases List.mem_cons.mp he with h | h
          · simp [h]
          · simp [h3 e h]
        · intro e he
          rcases List.mem_cons.mp he with h | h
          · simp [h]
          · rcases h4 e h with h | h
            · exact Or.inl h
            · exact Or.inr (List.mem_cons_of_mem _ h)

theorem coomapFindDyn_spec (S : StorageOrder) (i j : ℕ) :
    ∀ entries : List ((ℕ × ℕ) × Int), (i, j) ∉ entries.map Prod.fst →
      (COOmap.find_dynamic_entries S i j entries).length = entries.length + 1 ∧
      ((i, j), 0) ∈ COOmap.find_dynamic_entries S i j entries ∧
      (∀ e ∈ entries, e ∈ COOmap.find_dynamic_entries S i j entries) ∧
      (∀ e ∈ COOmap.find_dynamic_entries S i j entries,
        e = ((i, j), 0) ∨ e ∈ entries) := by
  intro entries
  induction entries with
  | nil => intro _; simp [COOmap.find_dynamic_entries]
  | cons hd tl ih =>
      intro habs
      obtain ⟨q, v⟩ := hd
      simp only [List.map_cons, List.mem_cons] at habs
      push_neg at habs
      have hq : q ≠ (i, j) := fun h => habs.1 h.symm
      by_cases hlt : cmpLt S (i, j) q = true
      · simp only [COOmap.find_dynamic_entries, if_neg hq, if_pos hlt]
        refine ⟨by simp, by simp, ?_, ?_⟩
        · intro e he; simp [he]
        · intro e he
          simpa using he
      · obtain ⟨h1, h2, h3, h4⟩ := ih habs.2
        simp only [COOmap.find_dynamic_entries, if_neg hq, if_neg hlt]
        refine ⟨by simpa using h1, by simp [h2], ?_, ?_⟩
        · intro e he
          rcases List.mem_cons.mp he with h | h
          · simp [h]
          · simp [h3 e h]
        · intro e he
          rcases List.mem_cons.mp he with h | h
          · simp [h]
          · rcases h4 e h with h | h
            · exact Or.inl h
            · exact Or.inr (List.mem_cons_of_mem _ h)

/-- C9: in dynamic mode, the mutable element access at an absent in-bounds
coordinate stores one explicit zero-valued entry: the entry count grows
by exactly one, the new zero entry at `(i,j)` is present, every previous
entry is still present, and nothing other than the new entry was added —
for both the list backend (`COO::find_dynamic`) and the map backend
(`COOmap::find_dynamic`).  The read-only overloads
(`find_dynamic_const`) are embedded as pure functions of the state
(`COO.find_dynamic_const` above), which matches the source: they only
scan and return, never touching the containers. -/
theorem c9_mutable_access_on_absent_adds_one_zero_entry
    (S : StorageOrder) (i j : ℕ) (entries : List ((ℕ × ℕ) × Int))
    (h : (i, j) ∉ entries.map Prod.fst) :
    ((COO.find_dynamic_entries S i j entries).length = entries.length + 1 ∧
     ((i, j), 0) ∈ COO.find_dynamic_entries S i j entries ∧
     (∀ e ∈ entries, e ∈ COO.find_dynamic_entries S i j entries) ∧
     (∀ e ∈ COO.find_dynamic_entries S i j entries,
        e = ((i, j), 0) ∨ e ∈ entries)) ∧
    ((COOmap.find_dynamic_entries S i j entries).length = entries.length + 1 ∧
     ((i, j), 0) ∈ COOmap.find_dynamic_entries S i j entries ∧
     (∀ e ∈ entries, e ∈ COOmap.find_dynamic_entries S i j entries) ∧
     (∀ e ∈ COOmap.find_dynamic_entries S i j entries,
        e = ((i, j), 0) ∨ e ∈ entries)) :=
  ⟨cooFindDyn_spec S i j entries h, coomapFindDyn_spec S i j entries h⟩

/-- Witness for C9 at the concrete row-major state `[(0,0) ↦ 7]` and the
absent coordinate `(0,1)`. -/
theorem c9_witness :
    ((0, 1) ∉ ([((0, 0), 7)] : List ((ℕ × ℕ) × Int)).map Prod.fst) ∧
    (COO.find_dynamic_entries .rowMajor 0 1 [((0, 0), 7)]).length = 2 ∧
    (COOmap.find_dynamic_entries .rowMajor 0 1 [((0, 0), 7)]).length = 2 :=
  ⟨by decide,
   (c9_mutable_access_on_absent_adds_one_zero_entry .rowMajor 0 1
      [((0, 0), 7)] (by decide)).1.1,
   (c9_mutable_access_on_absent_adds_one_zero_entry .rowMajor 0 1
      [((0, 0), 7)] (by decide)).2.1⟩

/-- C10: `resize(r, c)` unconditionally sets the dimensions to `(r, c)`
and leaves every stored entry untouched, in both representations — the
body of `Dimensions::resize` is two plain assignments, with no assertion
even in a `DEBUG` build and no removal of out-of-bounds entries (as the
concrete instance here has: a 1×1 resize keeping an entry at `(5,5)`). -/
theorem c10_resize_sets_dims_and_preserves_entries
    (m : COO) (y : YALE) (r c : ℕ) :
    (m.resize r c).rows = r ∧ (m.resize r c).columns = c ∧
    (m.resize r c).entries = m.entries ∧
    (y.resize r c).rows = r ∧ (y.resize r c).columns = c ∧
    (y.resize r c).inner = y.inner ∧ (y.resize r c).outer = y.outer ∧
    (y.resize r c).values = y.values ∧
    (COO.resize ⟨6, 6, [((5, 5), 1)]⟩ 1 1).entries = [((5, 5), 1)] := by
  simp [COO.resize, YALE.resize]

/-- Primary/secondary key of a coordinate under a storage order (row
first for row-major, column first for column-major). -/
def key : StorageOrder → ℕ × ℕ → ℕ × ℕ
  | rowMajor, a => a
  | columnMajor, a => (a.2, a.1)

theorem key_inj (S : StorageOrder) {a b : ℕ × ℕ} (h : key S a = key S b) :
    a = b := by
  cases S <;> simp only [key] at h
  · exact h
  · exact Prod.ext (congrArg Prod.snd h) (congrArg Prod.fst h)

theorem cmpLt_eq_true_iff (S : StorageOrder) (a b : ℕ × ℕ) :
    cmpLt S a b = true ↔
      ((key S a).1 < (key S b).1 ∨
       ((key S a).1 = (key S b).1 ∧ (key S a).2 < (key S b).2)) := by
  cases S <;> rcases a with ⟨a1, a2⟩ <;> rcases b with ⟨b1, b2⟩ <;>
    simp only [cmpLt, key] <;> split_ifs with h <;> simp <;> omega

/-- The order in which entries are kept: `a` may precede `b` exactly when
the comparator does not place `b` strictly before `a` (the postcondition
of `std::sort` with `Comparator<S>`). -/
def ordLe (S : StorageOrder) (a b : ℕ × ℕ) : Prop := cmpLt S b a = false

instance (S : StorageOrder) : DecidableRel (ordLe S) := fun a b =>
  decidable_of_iff (cmpLt S b a = false) Iff.rfl

theorem ordLe_iff (S : StorageOrder) (a b : ℕ × ℕ) :
    ordLe S a b ↔
      ((key S a).1 < (key S b).1 ∨
       ((key S a).1 = (key S b).1 ∧ (key S a).2 ≤ (key S b).2)) := by
  unfold ordLe
  rw [← Bool.not_eq_true, not_iff_comm, cmpLt_eq_true_iff]
  omega

instance (S : StorageOrder) : IsTotal (ℕ × ℕ) (ordLe S) :=
  ⟨fun a b => by rw [ordLe_iff, ordLe_iff]; omega⟩

instance (S : StorageOrder) : IsTrans (ℕ × ℕ) (ordLe S) :=
  ⟨fun a b c hab hbc => by
    rw [ordLe_iff] at hab hbc ⊢; omega⟩

theorem ordLe_antisymm (S : StorageOrder) {a b : ℕ × ℕ}
    (h1 : ordLe S a b) (h2 : ordLe S b a) : a = b := by
  rw [ordLe_iff] at h1 h2
  refine key_inj S (Prod.ext ?_ ?_) <;> omega

/-- The sort performed by every dynamic constructor
(`sort_permutation` + `apply_permutation` in `Comparators.hpp`):
a permutation of the input ordered by the comparator.  Since the
comparator is a strict total order, ties arise only between equal
coordinates, so any correct sort yields the same coordinate sequence;
insertion sort is used as the model. -/
def sortIndexes (S : StorageOrder) (l : List (ℕ × ℕ)) : List (ℕ × ℕ) :=
  List.insertionSort (ordLe S) l

/-- Whether no two ADJACENT elements are equal — the condition checked by
the duplicate assertion of the COO triplet constructor (`COOImpl.hpp`
lines 67-73), which compares each element of the sorted sequence with
its neighbour. -/
def noAdjDup : List (ℕ × ℕ) → Bool
  | [] => true
  | [_] => true
  | a :: b :: rest => decide (a ≠ b) && noAdjDup (b :: rest)

/-- Outcome of the `DEBUG` assertions of the COO triplet constructor:
`true` iff no assertion fires (the program is not aborted). -/
def cooCtorDebugOK (S : StorageOrder) (indexes : List (ℕ × ℕ)) : Bool :=
  noAdjDup (sortIndexes S indexes)

/-- Loop of the COOmap triplet constructor (`COOmapImpl.hpp` lines
43-67): each coordinate is looked up in the map built so far before being
inserted; the `DEBUG` assertion fires when the lookup succeeds. -/
def coomapCtorDebugGo : List (ℕ × ℕ) → List (ℕ × ℕ) → Bool
  | _, [] => true
  | seen, c :: rest =>
      if c ∈ seen then false else coomapCtorDebugGo (c :: seen) rest

/-- Outcome of the `DEBUG` assertions of the COOmap triplet constructor:
`true` iff no assertion fires. -/
def coomapCtorDebugOK (indexes : List (ℕ × ℕ)) : Bool :=
  coomapCtorDebugGo [] indexes

theorem noAdjDup_false_of_sorted_not_nodup (S : StorageOrder) :
    ∀ l : List (ℕ × ℕ), l.Sorted (ordLe S) → ¬ l.Nodup →
      noAdjDup l = false := by
  intro l
  induction l with
  | nil => intro _ hnd; exact absurd List.nodup_nil hnd
  | cons a t ih =>
      intro hs hnd
      match t with
      | [] => exact absurd (List.nodup_singleton a) hnd
      | b :: r =>
          by_cases hab : a = b
          · simp [noAdjDup, hab]
          · have htail : ¬ (b :: r).Nodup ∨ a ∈ b :: r := by
              rcases List.nodup_cons.mpr.mt hnd with h
              by_cases hmem : a ∈ b :: r
              · exact Or.inr hmem
              · exact Or.inl fun hnd2 => h ⟨hmem, hnd2⟩
            rcases htail with h | h
            · have := ih (List.Sorted.of_cons hs) h
              simp [noAdjDup, this]
            · rcases List.mem_cons.mp h with h | h
              · exact absurd h hab
              · exfalso
                have h1 : ordLe S a b :=
                  List.rel_of_sorted_cons hs b (List.mem_cons_self b r)
                have h2 : ordLe S b a :=
                  List.rel_of_sorted_cons (List.Sorted.of_cons hs) a h
                exact hab (ordLe_antisymm S h1 h2)

theorem coomapCtorDebugGo_false :
    ∀ (l seen : List (ℕ × ℕ)),
      (¬ l.Nodup ∨ ∃ x ∈ l, x ∈ seen) → coomapCtorDebugGo seen l = false := by
  intro l
  induction l with
  | nil =>
      intro seen h
      rcases h with h | ⟨x, hx, _⟩
      · exact absurd List.nodup_nil h
      · exact absurd hx (List.not_mem_nil x)
  | cons c rest ih =>
      intro seen h
      by_cases hc : c ∈ seen
      · simp [coomapCtorDebugGo, hc]
      · have hnext : ¬ rest.Nodup ∨ ∃ x ∈ rest, x ∈ c :: seen := by
          rcases h with h | ⟨x, hx, hxseen⟩
          · by_cases hcr : c ∈ rest
            · exact Or.inr ⟨c, hcr, List.mem_cons_self c seen⟩
            · refine Or.inl fun hnd => h (List.nodup_cons.mpr ⟨hcr, hnd⟩)
          · rcases List.mem_cons.mp hx with rfl | hxr
            · exact absurd hxseen hc
            · exact Or.inr ⟨x, hxr, List.mem_cons_of_mem c hxseen⟩
        simp only [coomapCtorDebugGo, if_neg hc]
        exact ih (c :: seen) hnext

/-- C7: in a `DEBUG` build, constructing a dynamic representation from
triplets that contain the same coordinate twice fires an assertion in
both backends: the COO constructor sorts the input and compares each
element with its neighbour, and a duplicated coordinate always ends up
adjacent to its copy in the sorted sequence; the COOmap constructor finds
the coordinate already present in the map being built. -/
theorem c7_duplicate_coordinates_fire_debug_assertions
    (S : StorageOrder) (indexes : List (ℕ × ℕ)) (h : ¬ indexes.Nodup) :
    cooCtorDebugOK S indexes = false ∧ coomapCtorDebugOK indexes = false := by
  constructor
  · have hperm := List.perm_insertionSort (ordLe S) indexes
    have hnd : ¬ (sortIndexes S indexes).Nodup := fun h2 =>
      h (hperm.nodup_iff.mp h2)
    exact noAdjDup_false_of_sorted_not_nodup S _
      (List.sorted_insertionSort (ordLe S) indexes) hnd
  · exact coomapCtorDebugGo_false indexes [] (Or.inl h)

/-- Witness for C7 at the concrete duplicated input
`[(0,0), (1,1), (0,0)]` under row-major order. -/
theorem c7_witness :
    ¬ ([((0:ℕ), (0:ℕ)), (1, 1), (0, 0)] : List (ℕ × ℕ)).Nodup ∧
    cooCtorDebugOK .rowMajor [(0, 0), (1, 1), (0, 0)] = false ∧
    coomapCtorDebugOK [(0, 0), (1, 1), (0, 0)] = false :=
  ⟨by decide,
   (c7_duplicate_coordinates_fire_debug_assertions .rowMajor
      [(0, 0), (1, 1), (0, 0)] (by decide)).1,
   (c7_duplicate_coordinates_fire_debug_assertions .rowMajor
      [(0, 0), (1, 1), (0, 0)] (by decide)).2⟩

/-- Dimension inference of the COO triplet and map constructors
(`COOImpl.hpp` lines 53-87): the loop walks the SORTED index vector in
reverse, keeps running maxima of row and column starting from `(0, 0)`,
and ends with `resize(max_r + 1, max_c + 1)`. -/
def COO.inferredDims (S : StorageOrder) (indexes : List (ℕ × ℕ)) : ℕ × ℕ :=
  let m := (sortIndexes S indexes).reverse.foldl
    (fun acc p => (max acc.1 p.1, max acc.2 p.2)) (0, 0)
  (m.1 + 1, m.2 + 1)

/-- Dimension inference of the COOmap triplet and map constructors
(`COOmapImpl.hpp` lines 39-69): the same running maxima, taken in input
order. -/
def COOmap.inferredDims (indexes : List (ℕ × ℕ)) : ℕ × ℕ :=
  let m := indexes.foldl (fun acc p => (max acc.1 p.1, max acc.2 p.2)) (0, 0)
  (m.1 + 1, m.2 + 1)

/-- Modelled from the spec: "maximum row index in the input" (exact for
non-empty input; `0` on empty input, which the claim excludes). -/
def specMaxRow (indexes : List (ℕ × ℕ)) : ℕ :=
  (indexes.map Prod.fst).foldr max 0

/-- Modelled from the spec: "maximum column index in the input". -/
def specMaxCol (indexes : List (ℕ × ℕ)) : ℕ :=
  (indexes.map Prod.snd).foldr max 0

theorem pairFold_eq (l : List (ℕ × ℕ)) :
    ∀ a b : ℕ,
      l.foldl (fun acc p => (max acc.1 p.1, max acc.2 p.2)) (a, b) =
        (l.foldl (fun m p => max m p.1) a, l.foldl (fun m p => max m p.2) b) := by
  induction l with
  | nil => intro a b; rfl
  | cons q t ih => intro a b; simpa using ih (max a q.1) (max b q.2)

theorem foldlMax_eq_foldr (f : ℕ × ℕ → ℕ) (l : List (ℕ × ℕ)) :
    ∀ a : ℕ,
      l.foldl (fun m p => max m (f p)) a = max a ((l.map f).foldr max 0) := by
  induction l with
  | nil => intro a; simp
  | cons q t ih =>
      intro a
      simp only [List.foldl_cons, List.map_cons, List.foldr_cons, ih]
      omega

theorem foldr_max_perm {l l2 : List ℕ} (h : l.Perm l2) :
    l.foldr max 0 = l2.foldr max 0 := by
  induction h with
  | nil => rfl
  | cons x _ ih => simp [ih]
  | swap x y t => simp only [List.foldr_cons]; omega
  | trans _ _ ih1 ih2 => exact ih1.trans ih2

/-- C8: for triplet-list or map input without explicit dimensions, both
dynamic constructors infer the dimensions `(max row + 1, max column +
1)` over the input: the COO loop takes its maxima over a permutation
(the sorted sequence, reversed) of the input, and running maxima from
`0` compute the list maximum. -/
theorem c8_inferred_dims_are_max_plus_one
    (S : StorageOrder) (indexes : List (ℕ × ℕ)) (h : indexes ≠ []) :
    COO.inferredDims S indexes = (specMaxRow indexes + 1, specMaxCol indexes + 1) ∧
    COOmap.inferredDims indexes = (specMaxRow indexes + 1, specMaxCol indexes + 1) := by
  clear h
  have hperm : (sortIndexes S indexes).reverse.Perm indexes :=
    ((sortIndexes S indexes).reverse_perm).trans
      (List.perm_insertionSort (ordLe S) indexes)
  constructor
  · unfold COO.inferredDims
    rw [pairFold_eq, foldlMax_eq_foldr, foldlMax_eq_foldr,
        foldr_max_perm (hperm.map Prod.fst), foldr_max_perm (hperm.map Prod.snd)]
    unfold specMaxRow specMaxCol
    simp
  · unfold COOmap.inferredDims
    rw [pairFold_eq, foldlMax_eq_foldr, foldlMax_eq_foldr]
    unfold specMaxRow specMaxCol
    simp

/-- Witness for C8 at the concrete input `[(0,0), (12,16)]` (the
constructor test of `tests.cpp`, which expects 13 rows and 17 columns). -/
theorem c8_witness :
    (([((0:ℕ), (0:ℕ)), (12, 16)] : List (ℕ × ℕ)) ≠ []) ∧
    COO.inferredDims .columnMajor [(0, 0), (12, 16)] = (13, 17) ∧
    COOmap.inferredDims [(0, 0), (12, 16)] = (13, 17) :=
  ⟨by decide,
   ((c8_inferred_dims_are_max_plus_one .columnMajor [(0, 0), (12, 16)]
      (by decide)).1).trans (by decide),
   ((c8_inferred_dims_are_max_plus_one .columnMajor [(0, 0), (12, 16)]
      (by decide)).2).trans (by decide)⟩

end SpMat
